import Mathlib

/-!
Verification of the App Store Connect dSYM synchronization subsystem.

Shallow embedding of:
  * `src/sentry/lang/native/appconnect.py` (clients, build listing, download),
  * `src/sentry/tasks/app_store_connect.py` (the `dsym_download` task and
    `create_difs_from_dsyms_zip`).

External I/O (the vendor REST and legacy-session endpoints, the HTTP stream,
the debug-file store) is modelled by explicit oracles in an `Env` record, and
the Django `AppConnectBuild` table by a list of rows together with the
`.objects.get(...)` / `.save()` operations used by the task.
-/

namespace AppStoreConnect

/-- `BuildKind` from `appconnect.py` (lines 60-64). -/
inductive BuildKind
  | ALL
  | PRE_RELEASE
  | RELEASE
deriving DecidableEq

/-- `BuildInfo` dataclass from `appconnect.py` (lines 67-94): kind, app id,
platform, human version (`bundle_short_version`) and build number
(`bundle_version`). -/
structure BuildInfo where
  kind : BuildKind
  app_id : String
  platform : String
  version : String
  build_number : String
deriving DecidableEq

/-- One element of the vendor's per-release listing: the fields of
`release` read by `list_builds` (`release["platform"]`,
`release["short_version"]`, and `release["versions"]`, of which only each
entry's `"version"` value is read). -/
structure ReleaseInfo where
  platform : String
  short_version : String
  versions : List String
deriving DecidableEq

/-- The vendor REST responses consumed by `list_builds`:
`appstore_connect.get_pre_release_version_info` returns a list of releases,
`appstore_connect.get_build_info` returns a dict (modelled as an ordered
association list, mirroring Python dict iteration order) whose keys are
group names such as `"pre_releases"`. -/
structure VendorEnv where
  preReleaseInfo : List ReleaseInfo
  buildInfoAll : List (String × List ReleaseInfo)

/-- The closed set of failures raised by the embedded code paths:
`KeyError` (config not found), `InvalidConfigError`, `NoDsymsError`,
an HTTP/stream failure during download (`requests` raising), and a failure
inside `debugfile.create_files_from_dif_zip` (corrupt archive). The unused
`InvalidCredentialsError` and the spec's `InvalidSession` are included so
statements about them can be written. -/
inductive AppError
  | keyError
  | invalidConfig
  | invalidCredentials
  | invalidSession
  | noDsyms
  | downloadFailed
  | corruptArchive
deriving DecidableEq

/-- JSON scalar values appearing in a symbol-source configuration blob. -/
inductive JsonVal
  | str (s : String)
  | num (n : Int)
deriving DecidableEq

/-- A raw symbol-source configuration object: an association list of fields. -/
abbrev Config := List (String × JsonVal)

/-- `appstore_connect.AppConnectCredentials` as built in `from_config`
(`appconnect.py` lines 180-184). -/
structure AppConnectCredentials where
  key_id : String
  key : String
  issuer_id : String
deriving DecidableEq

/-- `AppConnectClient` instance state (`appconnect.py` lines 134-146). -/
structure AppConnectClient where
  api_credentials : AppConnectCredentials
  itunes_cookie : String
  itunes_org : Int
  app_id : String
deriving DecidableEq

/-- `ITunesClient` instance state: after `__init__` the object holds a
`requests.Session` onto which the legacy session cookie has been loaded
(`appconnect.py` lines 106-109). -/
structure ITunesClient where
  session_cookie : String
deriving DecidableEq

/-- One row of the `AppConnectBuild` table as created by the task
(`app_store_connect.py` lines 43-51). -/
structure AppConnectBuild where
  project : Nat
  app_id : String
  bundle_id : String
  platform : String
  bundle_short_version : String
  bundle_version : String
  fetched : Bool
deriving DecidableEq

/-- The oracles standing for all external effects of one task invocation:
the vendor REST responses, whether the vendor considers the legacy session
cookie live (`sessionValid`), `itunes_connect.get_dsym_url`, the streamed
HTTP fetch of a dSYM URL, and `debugfile.create_files_from_dif_zip` applied
to the archive downloaded for a given build. -/
structure Env where
  vendor : VendorEnv
  sessionValid : Bool
  dsymUrl : BuildInfo → Option String
  fetchUrl : String → Except AppError Unit
  ingest : BuildInfo → Except AppError Unit

/-- The build kind assigned from a group key in `list_builds`
(`appconnect.py` lines 241-245): `"pre_releases"` maps to `PRE_RELEASE`,
anything else to `RELEASE`. -/
def kindOfName (kind_name : String) : BuildKind :=
  if kind_name = "pre_releases" then BuildKind.PRE_RELEASE else BuildKind.RELEASE

/-- The `BuildInfo` constructed for one inner build entry
(`appconnect.py` lines 249-255). -/
def mkBuildInfo (k : BuildKind) (app_id : String) (release : ReleaseInfo)
    (v : String) : BuildInfo :=
  { kind := k, app_id := app_id, platform := release.platform,
    version := release.short_version, build_number := v }

/-- The value bound to `all_results` in `list_builds`
(`appconnect.py` lines 225-238): both the `PRE_RELEASE` and the `RELEASE`
branch call `appstore_connect.get_pre_release_version_info`; only the key
under which the result is stored differs. -/
def allResults (env : VendorEnv) (kind : BuildKind) :
    List (String × List ReleaseInfo) :=
  match kind with
  | BuildKind.PRE_RELEASE => [("pre_releases", env.preReleaseInfo)]
  | BuildKind.RELEASE => [("releases", env.preReleaseInfo)]
  | BuildKind.ALL => env.buildInfoAll

/-- `AppConnectClient.list_builds` (`appconnect.py` lines 219-257): iterate
the grouped results in order and `append` one `BuildInfo` per inner build,
preserving the vendor's order. The accumulating `builds.append(build)` loop
is embedded as nested left folds over the groups, releases and versions. -/
def list_builds (env : VendorEnv) (app_id : String) (kind : BuildKind) :
    List BuildInfo :=
  (allResults env kind).foldl
    (fun builds g =>
      g.2.foldl
        (fun builds2 release =>
          release.versions.foldl
            (fun builds3 v =>
              builds3 ++ [mkBuildInfo (kindOfName g.1) app_id release v])
            builds2)
        builds)
    []

/-- Follows the spec's words, not the source (the comparison definition for
C9): the listing "aggregates results grouped by release, and flattens into an
ordered sequence", releases in response order and within each release its
builds in order. -/
def specOrderedBuilds (app_id : String)
    (groups : List (String × List ReleaseInfo)) : List BuildInfo :=
  groups.flatMap fun g =>
    g.2.flatMap fun rel => rel.versions.map (mkBuildInfo (kindOfName g.1) app_id rel)

/-- The matching test of `AppConnectClient.from_project`
(`appconnect.py` line 160): `source.get("type") == "appStoreConnect" and
source.get("id") == credentials_id`. -/
def configMatches (source : Config) (credentials_id : String) : Bool :=
  match source.lookup "type", source.lookup "id" with
  | some (JsonVal.str t), some (JsonVal.str i) =>
      t == "appStoreConnect" && i == credentials_id
  | _, _ => false

/-- Field accessor for a validated config: the string stored under `k`. -/
def getStr (c : Config) (k : String) : String :=
  match c.lookup k with
  | some (JsonVal.str s) => s
  | _ => ""

/-- Field accessor for a validated config: the number stored under `k`
(`int(config["orgId"])`). -/
def getNum (c : Config) (k : String) : Int :=
  match c.lookup k with
  | some (JsonVal.num n) => n
  | _ => 0

/-- The string-valued field check of the schema. -/
def requiredStr (c : Config) (k : String) : Bool :=
  match c.lookup k with
  | some (JsonVal.str _) => true
  | _ => false

/-- The numeric-valued field check of the schema. -/
def requiredNum (c : Config) (k : String) : Bool :=
  match c.lookup k with
  | some (JsonVal.num _) => true
  | _ => false

/-- Modelled from the spec: `APP_STORE_CONNECT_SCHEMA` lives in
`sentry/lang/native/symbolicator.py`, which is not among the surveyed
sources. Per the spec's configuration-input interface the schema requires
the string fields `appconnectKey`, `appconnectPrivateKey`,
`appconnectIssuer`, `itunesSession`, `appId`, `bundleId` and the numeric
field `orgId`; `jsonschema.validate` succeeds exactly when all required
fields are present with the right type. -/
def schemaValid (c : Config) : Bool :=
  requiredStr c "appconnectKey" && requiredStr c "appconnectPrivateKey" &&
  requiredStr c "appconnectIssuer" && requiredStr c "itunesSession" &&
  requiredNum c "orgId" && requiredStr c "appId" && requiredStr c "bundleId"

/-- `AppConnectClient.from_config` (`appconnect.py` lines 168-193):
validate against the schema, raising `InvalidConfigError` on violation,
otherwise build the credentials and the client. -/
def from_config (config : Config) : Except AppError AppConnectClient :=
  if schemaValid config then
    Except.ok
      { api_credentials :=
          { key_id := getStr config "appconnectKey",
            key := getStr config "appconnectPrivateKey",
            issuer_id := getStr config "appconnectIssuer" },
        itunes_cookie := getStr config "itunesSession",
        itunes_org := getNum config "orgId",
        app_id := getStr config "appId" }
  else Except.error AppError.invalidConfig

/-- `AppConnectClient.from_project` (`appconnect.py` lines 148-166) applied
to the already-parsed symbol-source list: the `for ... break / else: raise
KeyError` loop takes the first entry matching `configMatches`, raising
`KeyError` (the spec's NotFound) when none matches. -/
def from_project (sources : List Config) (credentials_id : String) :
    Except AppError AppConnectClient :=
  match sources.find? (fun s => configMatches s credentials_id) with
  | none => Except.error AppError.keyError
  | some config => from_config config

/-- Modelled from the spec: `get_app_store_config` is defined in
`sentry/api/endpoints/project_app_store_connect_credentials.py`, which is
not among the surveyed sources. Per the Credential Resolver contract it
locates, in the project's ordered symbol-source list, the entry whose type
is `appStoreConnect` and whose identifier matches, returning `None` when
absent (the caller in `dsym_download` then raises `KeyError`). -/
def get_app_store_config (sources : List Config) (credentials_id : String) :
    Option Config :=
  sources.find? (fun s => configMatches s credentials_id)

/-- `ITunesClient.__init__` (`appconnect.py` lines 106-109). The body only
creates a session and loads the legacy cookie onto it
(`itunes_connect.load_session_cookie`); the construction-time vendor call
`itunes_connect.set_provider(self._session, itunes_org)` is present in the
source only as a commented-out line, and `itunes_org` is otherwise unused.
The `valid` argument is the vendor's view of the cookie (`Env.sessionValid`);
since the body performs no vendor call, the result cannot depend on it. -/
def ITunesClient.init (valid : Bool) (itunes_cookie : String)
    (itunes_org : Int) : Except AppError ITunesClient :=
  Except.ok { session_cookie := itunes_cookie }

/-- `AppConnectClient.itunes_client` (`appconnect.py` lines 195-200):
constructs an `ITunesClient` from the stored cookie and org. -/
def AppConnectClient.itunes_client (self : AppConnectClient) (valid : Bool) :
    Except AppError ITunesClient :=
  ITunesClient.init valid self.itunes_cookie self.itunes_org

/-- `ITunesClient.download_dsyms` (`appconnect.py` lines 111-123): resolve
the dSYM URL via `itunes_connect.get_dsym_url` (the session is folded into
`Env`), raise `NoDsymsError` when it is falsy, otherwise stream the URL to
the destination file, any HTTP or stream failure raising out of the call. -/
def download_dsyms (env : Env) (build : BuildInfo) : Except AppError Unit :=
  match env.dsymUrl build with
  | none => Except.error AppError.noDsyms
  | some url => env.fetchUrl url

/-- `create_difs_from_dsyms_zip` (`app_store_connect.py` lines 66-72): opens
the downloaded archive for `build` and hands it to
`debugfile.create_files_from_dif_zip` (an external store, modelled by the
`Env.ingest` oracle); the loop over the created files only logs. -/
def create_difs_from_dsyms_zip (env : Env) (build : BuildInfo)
    (project : Nat) : Except AppError Unit :=
  env.ingest build

/-- The filter of `AppConnectBuild.objects.get` in the task
(`app_store_connect.py` lines 35-41): a row matches on project, `app_id`,
`platform`, `bundle_short_version` and `bundle_version` (not `bundle_id`). -/
def matchesBuild (project_id : Nat) (build : BuildInfo)
    (r : AppConnectBuild) : Bool :=
  r.project == project_id && r.app_id == build.app_id &&
  r.platform == build.platform && r.bundle_short_version == build.version &&
  r.bundle_version == build.build_number

/-- Same persisted key on two rows: agreement on the five lookup fields. -/
def sameRecKey (x y : AppConnectBuild) : Bool :=
  x.project == y.project && x.app_id == y.app_id && x.platform == y.platform &&
  x.bundle_short_version == y.bundle_short_version &&
  x.bundle_version == y.bundle_version

/-- The persisted lookup key of a row, as a tuple. -/
def recKey (x : AppConnectBuild) : Nat × String × String × String × String :=
  (x.project, x.app_id, x.platform, x.bundle_short_version, x.bundle_version)

/-- The lookup key the task queries for a listed build. -/
def buildKey (project_id : Nat) (build : BuildInfo) :
    Nat × String × String × String × String :=
  (project_id, build.app_id, build.platform, build.version, build.build_number)

/-- `AppConnectBuild.objects.get(...)`: the row matching the build's key
(`none` models `DoesNotExist`). The table's per-key uniqueness (see
`dbUnique`) makes the first match the only match. -/
def dbGet (db : List AppConnectBuild) (project_id : Nat) (build : BuildInfo) :
    Option AppConnectBuild :=
  db.find? (fun r => matchesBuild project_id build r)

/-- `build_state.save()`: update the existing row for this key, or insert
the new row when none exists. -/
def dbSave (db : List AppConnectBuild) (project_id : Nat) (build : BuildInfo)
    (r : AppConnectBuild) : List AppConnectBuild :=
  if (dbGet db project_id build).isSome then
    db.map (fun x => if matchesBuild project_id build x then r else x)
  else db ++ [r]

/-- A fetched row for this build's key exists in the table. -/
def fetchedIn (db : List AppConnectBuild) (project_id : Nat)
    (build : BuildInfo) : Bool :=
  db.any (fun r => matchesBuild project_id build r && r.fetched)

/-- A fetched row sharing `r`'s key exists in the table. -/
def fetchedKeyIn (db : List AppConnectBuild) (r : AppConnectBuild) : Bool :=
  db.any (fun x => sameRecKey x r && x.fetched)

/-- The table holds at most one row per key: the uniqueness invariant of the
`AppConnectBuild` table assumed by `.objects.get` (which would raise
`MultipleObjectsReturned` otherwise). -/
def dbUnique (db : List AppConnectBuild) : Prop :=
  db.Pairwise (fun a b => sameRecKey a b = false)

/-- Number of fetched rows in the table. -/
def countFetched (db : List AppConnectBuild) : Nat :=
  (db.filter (fun r => r.fetched)).length

/-- The mutable state of one task invocation: the table, plus observation
traces — the rows passed to `.save()` (`saves`), the builds for which
`download_dsyms` was invoked (`downloads`) — and the loop counter `count`. -/
structure TaskState where
  db : List AppConnectBuild
  saves : List AppConnectBuild
  downloads : List BuildInfo
  count : Nat
deriving DecidableEq

/-- The body of one iteration of the `for build in builds` loop up to the
end of the `if not build_state.fetched` block (`app_store_connect.py` lines
33-59): look up or create the row, skip when fetched, otherwise download to
a temporary file, ingest it, and only then set `fetched = True` and save.
An exception from download or ingest propagates (`Except.error`), carrying
the state at the point of the raise. -/
def processBuild (env : Env) (project_id : Nat) (bundle_id : String)
    (st : TaskState) (build : BuildInfo) :
    Except (AppError × TaskState) TaskState :=
  let build_state : AppConnectBuild :=
    match dbGet st.db project_id build with
    | some r => r
    | none =>
      { project := project_id, app_id := build.app_id, bundle_id := bundle_id,
        platform := build.platform, bundle_short_version := build.version,
        bundle_version := build.build_number, fetched := false }
  if build_state.fetched then Except.ok st
  else
    let st1 : TaskState := { st with downloads := st.downloads ++ [build] }
    match download_dsyms env build with
    | Except.error e => Except.error (e, st1)
    | Except.ok _ =>
      match create_difs_from_dsyms_zip env build project_id with
      | Except.error e => Except.error (e, st1)
      | Except.ok _ =>
        let build_state1 : AppConnectBuild := { build_state with fetched := true }
        Except.ok { st1 with
          db := dbSave st1.db project_id build build_state1,
          saves := st1.saves ++ [build_state1] }

/-- The `for build in builds` loop of `dsym_download`
(`app_store_connect.py` lines 33-63): after each non-raising iteration
`count += 1`, and `break` once `count >= 3` — note the counter advances for
already-fetched (skipped) builds as well. -/
def dsymLoop (env : Env) (project_id : Nat) (bundle_id : String)
    (builds : List BuildInfo) (st : TaskState) :
    Except (AppError × TaskState) TaskState :=
  match builds with
  | [] => Except.ok st
  | build :: rest =>
    match processBuild env project_id bundle_id st build with
    | Except.error e => Except.error e
    | Except.ok st1 =>
      let st2 : TaskState := { st1 with count := st1.count + 1 }
      if 3 ≤ st2.count then Except.ok st2
      else dsymLoop env project_id bundle_id rest st2

/-- The `dsym_download` task (`app_store_connect.py` lines 19-63) for one
project and source, over an already-parsed symbol-source list: resolve the
raw config (`KeyError` when absent), validate it via `from_config`,
construct the iTunes client, list all builds, then run the per-build loop
starting from the persisted table. -/
def dsym_download (env : Env) (project_id : Nat) (sources : List Config)
    (credentials_id : String) (db : List AppConnectBuild) :
    Except (AppError × TaskState) TaskState :=
  let st0 : TaskState := { db := db, saves := [], downloads := [], count := 0 }
  match get_app_store_config sources credentials_id with
  | none => Except.error (AppError.keyError, st0)
  | some config =>
    match from_config config with
    | Except.error e => Except.error (e, st0)
    | Except.ok client =>
      match client.itunes_client env.sessionValid with
      | Except.error e => Except.error (e, st0)
      | Except.ok _ =>
        let builds := list_builds env.vendor client.app_id BuildKind.ALL
        dsymLoop env project_id (getStr config "bundleId") builds st0

/-- The task state at the end of a run, whether it returned or raised. -/
def resState (r : Except (AppError × TaskState) TaskState) : TaskState :=
  match r with
  | Except.ok st => st
  | Except.error (_, st) => st

/-- Whether the run raised. -/
def isErr (r : Except (AppError × TaskState) TaskState) : Bool :=
  match r with
  | Except.ok _ => false
  | Except.error _ => true

/-- Test fixture: one vendor release on platform `"ios"`, version `"1.0"`,
with five builds numbered `"1"` to `"5"`. -/
def relTest : ReleaseInfo :=
  { platform := "ios", short_version := "1.0", versions := ["1", "2", "3", "4", "5"] }

/-- Test fixture: vendor responses whose full listing has the single
pre-release group `relTest`. -/
def vendorTest : VendorEnv :=
  { preReleaseInfo := [], buildInfoAll := [("pre_releases", [relTest])] }

/-- Test fixture: a schema-valid `appStoreConnect` source with id `"cid"`. -/
def cfgTest : Config :=
  [("type", JsonVal.str "appStoreConnect"), ("id", JsonVal.str "cid"),
   ("appconnectKey", JsonVal.str "k"), ("appconnectPrivateKey", JsonVal.str "pk"),
   ("appconnectIssuer", JsonVal.str "iss"), ("itunesSession", JsonVal.str "cookie"),
   ("orgId", JsonVal.num 1), ("appId", JsonVal.str "app1"),
   ("bundleId", JsonVal.str "bundle1")]

/-- Test fixture: a source of a different type, never matching. -/
def cfgOther : Config := [("type", JsonVal.str "http"), ("id", JsonVal.str "cid")]

/-- Test fixture: the project's symbol-source list holding only `cfgTest`. -/
def srcsTest : List Config := [cfgTest]

/-- Test fixture: the build numbered `n` as listed from `vendorTest`. -/
def bTest (n : String) : BuildInfo :=
  { kind := BuildKind.PRE_RELEASE, app_id := "app1", platform := "ios",
    version := "1.0", build_number := n }

/-- Test fixture: the fetched row the task persists for build `n`. -/
def recTest (n : String) : AppConnectBuild :=
  { project := 1, app_id := "app1", bundle_id := "bundle1", platform := "ios",
    bundle_short_version := "1.0", bundle_version := n, fetched := true }

/-- Test fixture: every external call succeeds. -/
def envOk : Env :=
  { vendor := vendorTest, sessionValid := true,
    dsymUrl := fun _ => some "https-dsym-url",
    fetchUrl := fun _ => Except.ok (),
    ingest := fun _ => Except.ok () }

/-- Test fixture: the dSYM HTTP fetch fails for every build. -/
def envDlFail : Env :=
  { envOk with fetchUrl := fun _ => Except.error AppError.downloadFailed }

/-- Test fixture: the vendor has no dSYM artifact for any build. -/
def envNoArt : Env :=
  { envOk with dsymUrl := fun _ => none }

/-- Test fixture: every downloaded archive fails ingestion. -/
def envIngFail : Env :=
  { envOk with ingest := fun _ => Except.error AppError.corruptArchive }

/-! Lemmas about the build listing. -/

/-- A left fold that appends one mapped element per step is the map appended
to the accumulator. -/
theorem foldl_snoc_eq {α β : Type} (f : α → β) :
    ∀ (l : List α) (init : List β),
      l.foldl (fun acc x => acc ++ [f x]) init = init ++ l.map f := by
  intro l
  induction l with
  | nil => intro init; simp
  | cons a t ih => intro init; simp [ih]

/-- A left fold that appends one block per step is the flattening appended
to the accumulator. -/
theorem foldl_append_eq {α β : Type} (f : α → List β) :
    ∀ (l : List α) (init : List β),
      l.foldl (fun acc x => acc ++ f x) init = init ++ l.flatMap f := by
  intro l
  induction l with
  | nil => intro init; simp
  | cons a t ih => intro init; simp [ih]

/-- The middle fold of `list_builds` flattens one group's releases in order. -/
theorem releases_foldl_eq (k : BuildKind) (app_id : String)
    (rs : List ReleaseInfo) (init : List BuildInfo) :
    rs.foldl
        (fun b2 rel =>
          rel.versions.foldl
            (fun b3 v => b3 ++ [mkBuildInfo k app_id rel v]) b2)
        init
      = init ++ rs.flatMap (fun rel => rel.versions.map (mkBuildInfo k app_id rel)) := by
  have h1 : (fun (b2 : List BuildInfo) (rel : ReleaseInfo) =>
      rel.versions.foldl (fun b3 v => b3 ++ [mkBuildInfo k app_id rel v]) b2)
      = fun b2 rel => b2 ++ rel.versions.map (mkBuildInfo k app_id rel) := by
    funext b2 rel
    exact foldl_snoc_eq _ _ _
  rw [h1, foldl_append_eq]

/-- The outer fold of `list_builds` flattens the groups in order. -/
theorem groups_foldl_eq (app_id : String)
    (groups : List (String × List ReleaseInfo)) (init : List BuildInfo) :
    groups.foldl
        (fun builds g =>
          g.2.foldl
            (fun b2 rel =>
              rel.versions.foldl
                (fun b3 v => b3 ++ [mkBuildInfo (kindOfName g.1) app_id rel v]) b2)
            builds)
        init
      = init ++ specOrderedBuilds app_id groups := by
  have h1 : (fun (builds : List BuildInfo) (g : String × List ReleaseInfo) =>
      g.2.foldl
        (fun b2 rel =>
          rel.versions.foldl
            (fun b3 v => b3 ++ [mkBuildInfo (kindOfName g.1) app_id rel v]) b2)
        builds)
      = fun builds g =>
          builds ++ g.2.flatMap
            (fun rel => rel.versions.map (mkBuildInfo (kindOfName g.1) app_id rel)) := by
    funext builds g
    exact releases_foldl_eq _ _ _ _
  rw [h1, foldl_append_eq]
  rfl

/-- `list_builds` computes exactly the ordered flattening of the grouped
results it queried for the requested kind. -/
theorem list_builds_eq_spec (env : VendorEnv) (app_id : String)
    (kind : BuildKind) :
    list_builds env app_id kind = specOrderedBuilds app_id (allResults env kind) := by
  simpa [list_builds] using groups_foldl_eq app_id (allResults env kind) []

/-- C6: For every fixed set of vendor responses, `list_builds` with kind
`PRE_RELEASE` and with kind `RELEASE` query the same underlying pre-release
data source and return element-wise equal sequences except for the kind tag
on each descriptor (`PRE_RELEASE` versus `RELEASE`), so the release listing
does not return release-only data. -/
theorem list_builds_release_uses_prerelease_source :
    ∀ (env : VendorEnv) (app_id : String),
      list_builds env app_id BuildKind.RELEASE
          = (list_builds env app_id BuildKind.PRE_RELEASE).map
              (fun b => { b with kind := BuildKind.RELEASE }) ∧
      (∀ b ∈ list_builds env app_id BuildKind.PRE_RELEASE,
          b.kind = BuildKind.PRE_RELEASE) ∧
      (∀ b ∈ list_builds env app_id BuildKind.RELEASE,
          b.kind = BuildKind.RELEASE) := by
  intro env app_id
  have hpre : list_builds env app_id BuildKind.PRE_RELEASE
      = env.preReleaseInfo.flatMap
          (fun rel => rel.versions.map (mkBuildInfo BuildKind.PRE_RELEASE app_id rel)) := by
    rw [list_builds_eq_spec]
    simp [allResults, specOrderedBuilds, kindOfName]
  have hrel : list_builds env app_id BuildKind.RELEASE
      = env.preReleaseInfo.flatMap
          (fun rel => rel.versions.map (mkBuildInfo BuildKind.RELEASE app_id rel)) := by
    rw [list_builds_eq_spec]
    simp [allResults, specOrderedBuilds, kindOfName]
  refine ⟨?_, ?_, ?_⟩
  · rw [hpre, hrel, List.map_flatMap]
    refine List.flatMap_congr ?_
    intro rel _
    rw [List.map_map]
    rfl
  · intro b hb
    rw [hpre] at hb
    rcases List.mem_flatMap.mp hb with ⟨rel, _, hb2⟩
    rcases List.mem_map.mp hb2 with ⟨v, _, rfl⟩
    rfl
  · intro b hb
    rw [hrel] at hb
    rcases List.mem_flatMap.mp hb with ⟨rel, _, hb2⟩
    rcases List.mem_map.mp hb2 with ⟨v, _, rfl⟩
    rfl

/-- C6 witness: on the concrete vendor fixture, the release listing equals
the pre-release listing retagged, and the first pre-release descriptor's
kind is `PRE_RELEASE`. -/
theorem list_builds_release_uses_prerelease_source_witness :
    list_builds { preReleaseInfo := [relTest], buildInfoAll := [] } "app1"
        BuildKind.RELEASE
      = (list_builds { preReleaseInfo := [relTest], buildInfoAll := [] } "app1"
          BuildKind.PRE_RELEASE).map (fun b => { b with kind := BuildKind.RELEASE }) ∧
    (bTest "1").kind = BuildKind.PRE_RELEASE := by
  have h := list_builds_release_uses_prerelease_source
    { preReleaseInfo := [relTest], buildInfoAll := [] } "app1"
  exact ⟨h.1, h.2.1 (bTest "1") (by decide)⟩

/-- C9: `list_builds` is deterministic in its inputs — for a fixed kind,
identical vendor responses (for the data source that kind queries) yield
identical ordered `BuildInfo` sequences — and the full listing preserves the
vendor's grouping order: releases in response order and, within each
release, its builds in order (`specOrderedBuilds`). -/
theorem list_builds_deterministic_and_ordered :
    ∀ (pre pre2 : List ReleaseInfo)
      (groups groups2 : List (String × List ReleaseInfo)) (app_id : String),
      list_builds ⟨pre, groups⟩ app_id BuildKind.ALL
          = list_builds ⟨pre2, groups⟩ app_id BuildKind.ALL ∧
      list_builds ⟨pre, groups⟩ app_id BuildKind.PRE_RELEASE
          = list_builds ⟨pre, groups2⟩ app_id BuildKind.PRE_RELEASE ∧
      list_builds ⟨pre, groups⟩ app_id BuildKind.RELEASE
          = list_builds ⟨pre, groups2⟩ app_id BuildKind.RELEASE ∧
      list_builds ⟨pre, groups⟩ app_id BuildKind.ALL
          = specOrderedBuilds app_id groups := by
  intro pre pre2 groups groups2 app_id
  refine ⟨rfl, rfl, rfl, ?_⟩
  rw [list_builds_eq_spec]
  rfl

/-- A missing key makes the string-field check fail. -/
theorem requiredStr_false_of_none (c : Config) (k : String)
    (h : c.lookup k = none) : requiredStr c k = false := by
  simp [requiredStr, h]

/-- A missing key makes the numeric-field check fail. -/
theorem requiredNum_false_of_none (c : Config) (k : String)
    (h : c.lookup k = none) : requiredNum c k = false := by
  simp [requiredNum, h]

/-- C5 (code bug): constructing the legacy session client performs no eager
liveness check. `ITunesClient.__init__` only loads the cookie onto a fresh
session — the `set_provider` vendor call is commented out and `itunes_org`
is unused — so construction succeeds for every cookie regardless of the
vendor's view of it (`valid`); in particular it succeeds, rather than
failing with InvalidSession, for an expired cookie. This contradicts the
class's own docstring ("On creation this will contact iTunes and will fail
if it does not have a valid iTunes session") and
`AppConnectClient.itunes_client`'s ("This will raise an exception if the
session cookie is expired"). -/
theorem itunes_client_no_eager_liveness :
    (∀ (valid : Bool) (cookie : String) (org : Int),
        ITunesClient.init valid cookie org
          = Except.ok { session_cookie := cookie }) ∧
    ITunesClient.init false "expired-cookie" 42
        = Except.ok { session_cookie := "expired-cookie" } ∧
    (∀ (client : AppConnectClient) (valid : Bool),
        client.itunes_client valid
          = Except.ok { session_cookie := client.itunes_cookie }) :=
  ⟨fun _ _ _ => rfl, rfl, fun _ _ => rfl⟩

/-- C7: for every configuration blob missing any of the required fields,
`from_config` fails with InvalidConfig; being an `Except.error`, it produces
no partial `SourceConfig` or client object. -/
theorem from_config_missing_field_invalid :
    ∀ (config : Config) (k : String),
      k ∈ ["appconnectKey", "appconnectPrivateKey", "appconnectIssuer",
           "itunesSession", "orgId", "appId", "bundleId"] →
      config.lookup k = none →
      from_config config = Except.error AppError.invalidConfig := by
  intro config k hk hnone
  have hval : schemaValid config = false := by
    simp only [List.mem_cons, List.not_mem_nil, or_false] at hk
    rcases hk with rfl | rfl | rfl | rfl | rfl | rfl | rfl
    all_goals
      simp [schemaValid, requiredStr_false_of_none config _ hnone,
        requiredNum_false_of_none config _ hnone]
  simp [from_config, hval]

/-- C7 witness: a blob holding only an API key id is missing
`itunesSession`, and `from_config` rejects it with InvalidConfig. -/
theorem from_config_missing_field_invalid_witness :
    from_config [("appconnectKey", JsonVal.str "k")]
      = Except.error AppError.invalidConfig :=
  from_config_missing_field_invalid [("appconnectKey", JsonVal.str "k")]
    "itunesSession" (by decide) (by decide)

/-- When every earlier entry fails the match, the first matching entry is
the one `find?` returns. -/
theorem find_first_match (credentials_id : String) :
    ∀ (pre post : List Config) (s : Config),
      (∀ x ∈ pre, configMatches x credentials_id = false) →
      configMatches s credentials_id = true →
      (pre ++ s :: post).find? (fun x => configMatches x credentials_id)
        = some s := by
  intro pre
  induction pre with
  | nil =>
    intro post s _ hs
    simp [List.find?, hs]
  | cons a t ih =>
    intro post s hpre hs
    have ha : configMatches a credentials_id = false := hpre a (by simp)
    have h2 := ih post s (fun x hx => hpre x (by simp [hx])) hs
    simpa [List.find?, ha] using h2

/-- C8: when no entry of the symbol-source list has type
`"appStoreConnect"` together with the caller-supplied identifier,
`from_project` fails with the KeyError (the spec's NotFound) and constructs
no client; when a matching entry exists, the first such entry in list order
is the one handed to `from_config`. -/
theorem from_project_first_match :
    ∀ (sources : List Config) (credentials_id : String),
      ((∀ s ∈ sources, configMatches s credentials_id = false) →
        from_project sources credentials_id = Except.error AppError.keyError) ∧
      (∀ (pre post : List Config) (s : Config),
        sources = pre ++ s :: post →
        (∀ x ∈ pre, configMatches x credentials_id = false) →
        configMatches s credentials_id = true →
        from_project sources credentials_id = from_config s) := by
  intro sources credentials_id
  constructor
  · intro h
    have hfind : sources.find? (fun s => configMatches s credentials_id) = none :=
      List.find?_eq_none.mpr (by intro x hx; simp [h x hx])
    simp [from_project, hfind]
  · intro pre post s hsrc hpre hs
    subst hsrc
    have hfind := find_first_match credentials_id pre post s hpre hs
    simp [from_project, hfind]

/-- C8 witness: a list with only a non-matching (`"http"`-typed) source
resolves to KeyError, and prepending that non-matching source to a matching
one resolves to the matching one. -/
theorem from_project_first_match_witness :
    from_project [cfgOther] "cid" = Except.error AppError.keyError ∧
    from_project [cfgOther, cfgTest] "cid" = from_config cfgTest := by
  constructor
  · exact (from_project_first_match [cfgOther] "cid").1 (by decide)
  · exact (from_project_first_match [cfgOther, cfgTest] "cid").2
      [cfgOther] [] cfgTest rfl (by decide) (by decide)

/-! Lemmas about the per-build loop. -/

/-- The three possible outcomes of one loop body: skip (row already
fetched), raise (download or ingest failed, with the build recorded in the
download trace and its row untouched), or success (row saved fetched). -/
theorem processBuild_cases (env : Env) (pid : Nat) (bid : String)
    (st : TaskState) (build : BuildInfo) :
    (processBuild env pid bid st build = Except.ok st ∧
      ∃ u, dbGet st.db pid build = some u ∧ u.fetched = true) ∨
    (∃ e, processBuild env pid bid st build
        = Except.error (e, { st with downloads := st.downloads ++ [build] }) ∧
      (download_dsyms env build = Except.error e ∨
        (download_dsyms env build = Except.ok () ∧
         create_difs_from_dsyms_zip env build pid = Except.error e)) ∧
      (dbGet st.db pid build = none ∨
        ∃ u, dbGet st.db pid build = some u ∧ u.fetched = false)) ∨
    (∃ r, processBuild env pid bid st build
        = Except.ok { st with
            db := dbSave st.db pid build r,
            saves := st.saves ++ [r],
            downloads := st.downloads ++ [build] } ∧
      r.fetched = true ∧ matchesBuild pid build r = true ∧
      download_dsyms env build = Except.ok () ∧
      create_difs_from_dsyms_zip env build pid = Except.ok () ∧
      (dbGet st.db pid build = none ∨
        ∃ u, dbGet st.db pid build = some u ∧ u.fetched = false)) := by
  cases hget : dbGet st.db pid build with
  | none =>
    cases hdl : download_dsyms env build with
    | error e =>
      have hpb : processBuild env pid bid st build
          = Except.error (e, { st with downloads := st.downloads ++ [build] }) := by
        simp [processBuild, hget, hdl]
      exact Or.inr (Or.inl ⟨e, hpb, Or.inl rfl, Or.inl rfl⟩)
    | ok w =>
      cases w
      cases hing : create_difs_from_dsyms_zip env build pid with
      | error e =>
        have hpb : processBuild env pid bid st build
            = Except.error (e, { st with downloads := st.downloads ++ [build] }) := by
          simp [processBuild, hget, hdl, hing]
        exact Or.inr (Or.inl ⟨e, hpb, Or.inr ⟨rfl, rfl⟩, Or.inl rfl⟩)
      | ok v =>
        cases v
        have hpb : processBuild env pid bid st build
            = Except.ok { st with
                db := dbSave st.db pid build
                  { project := pid, app_id := build.app_id, bundle_id := bid,
                    platform := build.platform,
                    bundle_short_version := build.version,
                    bundle_version := build.build_number, fetched := true },
                saves := st.saves ++
                  [{ project := pid, app_id := build.app_id, bundle_id := bid,
                     platform := build.platform,
                     bundle_short_version := build.version,
                     bundle_version := build.build_number, fetched := true }],
                downloads := st.downloads ++ [build] } := by
          simp [processBuild, hget, hdl, hing]
        refine Or.inr (Or.inr ⟨_, hpb, rfl, ?_, rfl, rfl, Or.inl rfl⟩)
        simp [matchesBuild]
  | some u =>
    have hmatch : matchesBuild pid build u = true := List.find?_some hget
    cases hfet : u.fetched with
    | true =>
      have hpb : processBuild env pid bid st build = Except.ok st := by
        simp [processBuild, hget, hfet]
      exact Or.inl ⟨hpb, u, rfl, hfet⟩
    | false =>
      cases hdl : download_dsyms env build with
      | error e =>
        have hpb : processBuild env pid bid st build
            = Except.error (e, { st with downloads := st.downloads ++ [build] }) := by
          simp [processBuild, hget, hfet, hdl]
        exact Or.inr (Or.inl ⟨e, hpb, Or.inl rfl, Or.inr ⟨u, rfl, hfet⟩⟩)
      | ok w =>
        cases w
        cases hing : create_difs_from_dsyms_zip env build pid with
        | error e =>
          have hpb : processBuild env pid bid st build
              = Except.error (e, { st with downloads := st.downloads ++ [build] }) := by
            simp [processBuild, hget, hfet, hdl, hing]
          exact Or.inr (Or.inl ⟨e, hpb, Or.inr ⟨rfl, rfl⟩, Or.inr ⟨u, rfl, hfet⟩⟩)
        | ok v =>
          cases v
          have hpb : processBuild env pid bid st build
              = Except.ok { st with
                  db := dbSave st.db pid build { u with fetched := true },
                  saves := st.saves ++ [{ u with fetched := true }],
                  downloads := st.downloads ++ [build] } := by
            simp [processBuild, hget, hfet, hdl, hing]
          refine Or.inr (Or.inr ⟨{ u with fetched := true }, hpb, rfl, ?_,
            rfl, rfl, Or.inr ⟨u, rfl, hfet⟩⟩)
          simpa [matchesBuild] using hmatch

/-- The per-run cap: starting below the cap with traces bounded by the
counter, the final save and download traces never exceed three entries. -/
theorem dsymLoop_bounds (env : Env) (pid : Nat) (bid : String) :
    ∀ (builds : List BuildInfo) (st : TaskState),
      st.count < 3 → st.saves.length ≤ st.count →
      st.downloads.length ≤ st.count →
      (resState (dsymLoop env pid bid builds st)).saves.length ≤ 3 ∧
      (resState (dsymLoop env pid bid builds st)).downloads.length ≤ 3 := by
  intro builds
  induction builds with
  | nil =>
    intro st h1 h2 h3
    constructor <;> (simp [dsymLoop, resState]; omega)
  | cons b rest ih =>
    intro st h1 h2 h3
    rcases processBuild_cases env pid bid st b with
      ⟨hpb, _⟩ | ⟨e, hpb, _⟩ | ⟨r, hpb, _⟩
    · simp only [dsymLoop, hpb]
      by_cases hc : 3 ≤ st.count + 1
      · simp only [hc, if_true]
        constructor <;> (simp [resState]; omega)
      · simp only [hc, if_false]
        refine ih _ ?_ ?_ ?_ <;> simp <;> omega
    · simp only [dsymLoop, hpb]
      constructor <;> (simp [resState]; omega)
    · simp only [dsymLoop, hpb]
      by_cases hc : 3 ≤ st.count + 1
      · simp only [hc, if_true]
        constructor <;> (simp [resState]; omega)
      · simp only [hc, if_false]
        refine ih _ ?_ ?_ ?_ <;> simp <;> omega

/-- The task either fails before the loop (missing config, invalid schema)
with the initial state, or runs the loop on the full listing from the
initial state. -/
theorem dsym_download_run (env : Env) (pid : Nat) (sources : List Config)
    (cid : String) (db : List AppConnectBuild) :
    (dsym_download env pid sources cid db
        = Except.error (AppError.keyError,
            { db := db, saves := [], downloads := [], count := 0 })) ∨
    (dsym_download env pid sources cid db
        = Except.error (AppError.invalidConfig,
            { db := db, saves := [], downloads := [], count := 0 })) ∨
    (∃ config, get_app_store_config sources cid = some config ∧
      schemaValid config = true ∧
      dsym_download env pid sources cid db
        = dsymLoop env pid (getStr config "bundleId")
            (list_builds env.vendor (getStr config "appId") BuildKind.ALL)
            { db := db, saves := [], downloads := [], count := 0 }) := by
  unfold dsym_download
  cases hc : get_app_store_config sources cid with
  | none => left; rfl
  | some config =>
    by_cases hs : schemaValid config
    · right; right
      exact ⟨config, rfl, hs,
        by simp [from_config, hs, AppConnectClient.itunes_client, ITunesClient.init]⟩
    · right; left
      simp [from_config, hs]

/-- C2: in any single invocation the task downloads and marks fetched at
most the per-run cap of three builds (`count >= 3` breaks the loop), and in
the concrete scenario of a schema-valid source whose vendor listing holds
five unfetched builds with no failures, exactly three rows become fetched
while builds "4" and "5" remain not-fetched. -/
theorem dsym_download_cap :
    (∀ (env : Env) (pid : Nat) (sources : List Config) (cid : String)
        (db : List AppConnectBuild),
      (resState (dsym_download env pid sources cid db)).saves.length ≤ 3 ∧
      (resState (dsym_download env pid sources cid db)).downloads.length ≤ 3) ∧
    countFetched (resState (dsym_download envOk 1 srcsTest "cid" [])).db = 3 ∧
    (resState (dsym_download envOk 1 srcsTest "cid" [])).saves.length = 3 ∧
    fetchedIn (resState (dsym_download envOk 1 srcsTest "cid" [])).db 1
        (bTest "4") = false ∧
    fetchedIn (resState (dsym_download envOk 1 srcsTest "cid" [])).db 1
        (bTest "5") = false := by
  refine ⟨?_, rfl, rfl, rfl, rfl⟩
  intro env pid sources cid db
  rcases dsym_download_run env pid sources cid db with h | h | ⟨c, _, _, h⟩
  · rw [h]; simp [resState]
  · rw [h]; simp [resState]
  · rw [h]
    exact dsymLoop_bounds env pid _ _ _ (by simp) (by simp) (by simp)

/-- C3 (code bug): the loop counter advances for already-fetched builds, so
a re-run does not resume at the first not-yet-fetched build. After a first
run fetches builds "1"-"3" of the five listed, a second run over the
resulting table counts those three fetched builds, hits the cap and breaks:
it returns without error, invokes no download, saves nothing, and leaves
builds "4" and "5" not-fetched — they are stranded for every later run as
well. -/
theorem dsym_download_rerun_stalls :
    (resState (dsym_download envOk 1 srcsTest "cid" [])).db
        = [recTest "1", recTest "2", recTest "3"] ∧
    fetchedIn [recTest "1", recTest "2", recTest "3"] 1 (bTest "4") = false ∧
    isErr (dsym_download envOk 1 srcsTest "cid"
        [recTest "1", recTest "2", recTest "3"]) = false ∧
    (resState (dsym_download envOk 1 srcsTest "cid"
        [recTest "1", recTest "2", recTest "3"])).downloads = [] ∧
    (resState (dsym_download envOk 1 srcsTest "cid"
        [recTest "1", recTest "2", recTest "3"])).saves = [] ∧
    fetchedIn (resState (dsym_download envOk 1 srcsTest "cid"
        [recTest "1", recTest "2", recTest "3"])).db 1 (bTest "4") = false ∧
    fetchedIn (resState (dsym_download envOk 1 srcsTest "cid"
        [recTest "1", recTest "2", recTest "3"])).db 1 (bTest "5") = false :=
  ⟨rfl, rfl, rfl, rfl, rfl, rfl, rfl⟩

/-- C1 counterexample: with builds "1"-"5" unfetched and the dSYM fetch
failing, the failure at build "1" is not caught at the per-build boundary:
the whole invocation aborts as that error with no later build examined
(the download trace ends at build "1"); likewise the NoArtifact case
(`NoDsymsError`) aborts the invocation instead of being treated as
nothing-to-fetch. -/
theorem dsym_download_failure_aborts_cex :
    dsym_download envDlFail 1 srcsTest "cid" []
        = Except.error (AppError.downloadFailed,
            { db := [], saves := [], downloads := [bTest "1"], count := 0 }) ∧
    dsym_download envNoArt 1 srcsTest "cid" []
        = Except.error (AppError.noDsyms,
            { db := [], saves := [], downloads := [bTest "1"], count := 0 }) :=
  ⟨rfl, rfl⟩

/-! Lemmas about the persisted table. -/

/-- The row-matching test agrees with key equality. -/
theorem matchesBuild_iff (pid : Nat) (b : BuildInfo) (r : AppConnectBuild) :
    matchesBuild pid b r = true ↔ recKey r = buildKey pid b := by
  simp [matchesBuild, recKey, buildKey, and_assoc]

/-- Key agreement between rows agrees with key equality. -/
theorem sameRecKey_iff (x y : AppConnectBuild) :
    sameRecKey x y = true ↔ recKey x = recKey y := by
  simp [sameRecKey, recKey, and_assoc]

/-- Key disagreement between rows agrees with key inequality. -/
theorem sameRecKey_false_iff (x y : AppConnectBuild) :
    sameRecKey x y = false ↔ recKey x ≠ recKey y := by
  rw [← Bool.not_eq_true, sameRecKey_iff]

/-- A fetched row for the build's key exists iff some row holds that key
with `fetched = true`. -/
theorem fetchedIn_iff (db : List AppConnectBuild) (pid : Nat) (b : BuildInfo) :
    fetchedIn db pid b = true ↔
      ∃ r ∈ db, recKey r = buildKey pid b ∧ r.fetched = true := by
  simp [fetchedIn, List.any_eq_true, matchesBuild_iff]

/-- A fetched row sharing `r`'s key exists iff some row holds that key with
`fetched = true`. -/
theorem fetchedKeyIn_iff (db : List AppConnectBuild) (r : AppConnectBuild) :
    fetchedKeyIn db r = true ↔
      ∃ x ∈ db, recKey x = recKey r ∧ x.fetched = true := by
  simp [fetchedKeyIn, List.any_eq_true, sameRecKey_iff]

/-- `DoesNotExist` means no row holds the build's key. -/
theorem dbGet_none_iff (db : List AppConnectBuild) (pid : Nat) (b : BuildInfo) :
    dbGet db pid b = none ↔ ∀ r ∈ db, recKey r ≠ buildKey pid b := by
  simp [dbGet, List.find?_eq_none, matchesBuild_iff]

/-- A found row is a member of the table and holds the build's key. -/
theorem dbGet_some (db : List AppConnectBuild) (pid : Nat) (b : BuildInfo)
    (u : AppConnectBuild) (h : dbGet db pid b = some u) :
    u ∈ db ∧ recKey u = buildKey pid b :=
  ⟨List.mem_of_find?_eq_some h, (matchesBuild_iff pid b u).mp (List.find?_some h)⟩

/-- Saving a fetched row cannot remove a fetched row for any key: rows of
other keys are untouched and rows of the saved key are replaced by the
fetched row. -/
theorem fetchedKeyIn_dbSave (db : List AppConnectBuild) (pid : Nat)
    (b : BuildInfo) (r r0 : AppConnectBuild) (hr : r.fetched = true)
    (hk : recKey r = buildKey pid b) (h : fetchedKeyIn db r0 = true) :
    fetchedKeyIn (dbSave db pid b r) r0 = true := by
  rcases (fetchedKeyIn_iff db r0).mp h with ⟨x, hx, hxk, hxf⟩
  rw [fetchedKeyIn_iff]
  unfold dbSave
  by_cases hg : (dbGet db pid b).isSome
  · simp only [hg, if_true]
    by_cases hm : matchesBuild pid b x = true
    · refine ⟨r, List.mem_map.mpr ⟨x, hx, by simp [hm]⟩, ?_, hr⟩
      rw [hk, ← (matchesBuild_iff pid b x).mp hm, hxk]
    · refine ⟨x, List.mem_map.mpr ⟨x, hx, ?_⟩, hxk, hxf⟩
      simp [hm]
  · simp only [hg, if_false]
    exact ⟨x, List.mem_append.mpr (Or.inl hx), hxk, hxf⟩

/-- After saving a fetched row, a fetched row for its key is in the table. -/
theorem fetchedKeyIn_dbSave_self (db : List AppConnectBuild) (pid : Nat)
    (b : BuildInfo) (r : AppConnectBuild) (hr : r.fetched = true)
    (hk : recKey r = buildKey pid b) :
    fetchedKeyIn (dbSave db pid b r) r = true := by
  rw [fetchedKeyIn_iff]
  unfold dbSave
  by_cases hg : (dbGet db pid b).isSome
  · simp only [hg, if_true]
    rcases Option.isSome_iff_exists.mp hg with ⟨u, hu⟩
    have hum : matchesBuild pid b u = true := List.find?_some hu
    refine ⟨r, List.mem_map.mpr ⟨u, (dbGet_some db pid b u hu).1, by simp [hum]⟩,
      rfl, hr⟩
  · simp only [hg, if_false]
    exact ⟨r, List.mem_append.mpr (Or.inr (by simp)), rfl, hr⟩

/-- Saving a row for a build's key preserves the table's per-key
uniqueness. -/
theorem dbSave_unique (db : List AppConnectBuild) (pid : Nat) (b : BuildInfo)
    (r : AppConnectBuild) (hk : recKey r = buildKey pid b) (hu : dbUnique db) :
    dbUnique (dbSave db pid b r) := by
  unfold dbSave
  by_cases hg : (dbGet db pid b).isSome = true
  · rw [if_pos hg]
    refine List.Pairwise.map _ ?_ hu
    intro x y hxy
    by_cases hmx : matchesBuild pid b x = true <;>
      by_cases hmy : matchesBuild pid b y = true
    · exfalso
      rw [sameRecKey_false_iff] at hxy
      exact hxy (((matchesBuild_iff pid b x).mp hmx).trans
        ((matchesBuild_iff pid b y).mp hmy).symm)
    · rw [if_pos hmx, if_neg hmy]
      rw [sameRecKey_false_iff] at hxy ⊢
      rw [hk, ← (matchesBuild_iff pid b x).mp hmx]
      exact hxy
    · rw [if_neg hmx, if_pos hmy]
      rw [sameRecKey_false_iff] at hxy ⊢
      rw [hk, ← (matchesBuild_iff pid b y).mp hmy]
      exact hxy
    · rw [if_neg hmx, if_neg hmy]
      exact hxy
  · rw [if_neg hg]
    rw [dbUnique, List.pairwise_append]
    refine ⟨hu, List.pairwise_singleton _ _, ?_⟩
    intro x hx y hy
    simp only [List.mem_singleton] at hy
    subst hy
    rw [sameRecKey_false_iff, hk]
    have hnone : dbGet db pid b = none := by
      cases hgv : dbGet db pid b with
      | none => rfl
      | some u => rw [hgv] at hg; simp at hg
    exact fun h2 => (dbGet_none_iff db pid b).mp hnone x hx h2

/-- The relation "distinct keys" between rows is symmetric. -/
theorem sameRecKey_false_symm :
    ∀ {x y : AppConnectBuild}, sameRecKey x y = false → sameRecKey y x = false := by
  intro x y h
  rw [sameRecKey_false_iff] at h ⊢
  exact fun h2 => h h2.symm

/-- In a per-key-unique table, when the first (hence only) matching row is
absent or not fetched, no fetched row for the key exists. -/
theorem fetchedIn_false_of_unfetched_get (db : List AppConnectBuild)
    (pid : Nat) (b : BuildInfo) (hu : dbUnique db)
    (h : dbGet db pid b = none ∨
      ∃ u, dbGet db pid b = some u ∧ u.fetched = false) :
    fetchedIn db pid b = false := by
  cases hf : fetchedIn db pid b with
  | false => rfl
  | true =>
    exfalso
    rcases (fetchedIn_iff db pid b).mp hf with ⟨x, hx, hxk, hxf⟩
    rcases h with hnone | ⟨u, hg, huf⟩
    · exact (dbGet_none_iff db pid b).mp hnone x hx hxk
    · rcases dbGet_some db pid b u hg with ⟨humem, huk⟩
      by_cases hxu : x = u
      · subst hxu
        rw [hxf] at huf
        exact Bool.noConfusion huf
      · have hpair := List.Pairwise.forall
          (fun _ _ h => sameRecKey_false_symm h) hu hx humem hxu
        rw [sameRecKey_false_iff] at hpair
        exact hpair (hxk.trans huk.symm)

/-- Every row the loop adds to the save trace has `fetched = true`. -/
theorem dsymLoop_saves_fetched (env : Env) (pid : Nat) (bid : String) :
    ∀ (builds : List BuildInfo) (st : TaskState),
      (∀ r ∈ st.saves, r.fetched = true) →
      ∀ r ∈ (resState (dsymLoop env pid bid builds st)).saves, r.fetched = true := by
  intro builds
  induction builds with
  | nil => intro st h; simpa [dsymLoop, resState] using h
  | cons b rest ih =>
    intro st h
    rcases processBuild_cases env pid bid st b with
      ⟨hpb, _⟩ | ⟨e, hpb, _⟩ | ⟨r, hpb, hr, _⟩
    · simp only [dsymLoop, hpb]
      by_cases hc : 3 ≤ st.count + 1
      · simp only [hc, if_true]
        simpa [resState] using h
      · simp only [hc, if_false]
        exact ih _ (by simpa using h)
    · simp only [dsymLoop, hpb]
      simpa [resState] using h
    · simp only [dsymLoop, hpb]
      have h2 : ∀ x ∈ st.saves ++ [r], x.fetched = true := by
        intro x hx
        rcases List.mem_append.mp hx with hx | hx
        · exact h x hx
        · simp only [List.mem_singleton] at hx
          subst hx
          exact hr
      by_cases hc : 3 ≤ st.count + 1
      · simp only [hc, if_true]
        simpa [resState] using h2
      · simp only [hc, if_false]
        exact ih _ (by simpa using h2)

/-- Every row the loop adds to the save trace belongs to a build whose
download and ingest both returned without error. -/
theorem dsymLoop_saves_success (env : Env) (pid : Nat) (bid : String) :
    ∀ (builds : List BuildInfo) (st : TaskState),
      (∀ r ∈ st.saves, ∃ b, matchesBuild pid b r = true ∧
        download_dsyms env b = Except.ok () ∧
        create_difs_from_dsyms_zip env b pid = Except.ok ()) →
      ∀ r ∈ (resState (dsymLoop env pid bid builds st)).saves,
        ∃ b, matchesBuild pid b r = true ∧
          download_dsyms env b = Except.ok () ∧
          create_difs_from_dsyms_zip env b pid = Except.ok () := by
  intro builds
  induction builds with
  | nil => intro st h; simpa [dsymLoop, resState] using h
  | cons b rest ih =>
    intro st h
    rcases processBuild_cases env pid bid st b with
      ⟨hpb, _⟩ | ⟨e, hpb, _⟩ | ⟨r, hpb, hr, hm, hdl, hing, _⟩
    · simp only [dsymLoop, hpb]
      by_cases hc : 3 ≤ st.count + 1
      · simp only [hc, if_true]
        simpa [resState] using h
      · simp only [hc, if_false]
        exact ih _ (by simpa using h)
    · simp only [dsymLoop, hpb]
      simpa [resState] using h
    · simp only [dsymLoop, hpb]
      have h2 : ∀ x ∈ st.saves ++ [r], ∃ b2, matchesBuild pid b2 x = true ∧
          download_dsyms env b2 = Except.ok () ∧
          create_difs_from_dsyms_zip env b2 pid = Except.ok () := by
        intro x hx
        rcases List.mem_append.mp hx with hx | hx
        · exact h x hx
        · simp only [List.mem_singleton] at hx
          subst hx
          exact ⟨b, hm, hdl, hing⟩
      by_cases hc : 3 ≤ st.count + 1
      · simp only [hc, if_true]
        simpa [resState] using h2
      · simp only [hc, if_false]
        exact ih _ (by simpa using h2)

/-- The loop preserves per-key uniqueness of the table, keeps every
previously saved key fetched in the table, and never saves the same key
twice. -/
theorem dsymLoop_unique (env : Env) (pid : Nat) (bid : String) :
    ∀ (builds : List BuildInfo) (st : TaskState),
      dbUnique st.db →
      (∀ r ∈ st.saves, fetchedKeyIn st.db r = true) →
      st.saves.Pairwise (fun a b => sameRecKey a b = false) →
      dbUnique (resState (dsymLoop env pid bid builds st)).db ∧
      (∀ r ∈ (resState (dsymLoop env pid bid builds st)).saves,
        fetchedKeyIn (resState (dsymLoop env pid bid builds st)).db r = true) ∧
      (resState (dsymLoop env pid bid builds st)).saves.Pairwise
        (fun a b => sameRecKey a b = false) := by
  intro builds
  induction builds with
  | nil => intro st hu hkeys hpw; simpa [dsymLoop, resState] using ⟨hu, hkeys, hpw⟩
  | cons b rest ih =>
    intro st hu hkeys hpw
    rcases processBuild_cases env pid bid st b with
      ⟨hpb, _⟩ | ⟨e, hpb, _⟩ | ⟨r, hpb, hr, hm, hdl, hing, hunf⟩
    · simp only [dsymLoop, hpb]
      by_cases hc : 3 ≤ st.count + 1
      · simp only [hc, if_true]
        simpa [resState] using ⟨hu, hkeys, hpw⟩
      · simp only [hc, if_false]
        exact ih _ (by simpa using hu) (by simpa using hkeys) (by simpa using hpw)
    · simp only [dsymLoop, hpb]
      simpa [resState] using ⟨hu, hkeys, hpw⟩
    · simp only [dsymLoop, hpb]
      have hkm : recKey r = buildKey pid b := (matchesBuild_iff pid b r).mp hm
      have hnotfet : fetchedIn st.db pid b = false :=
        fetchedIn_false_of_unfetched_get st.db pid b hu hunf
      have hu2 : dbUnique (dbSave st.db pid b r) := dbSave_unique st.db pid b r hkm hu
      have hkeys2 : ∀ x ∈ st.saves ++ [r],
          fetchedKeyIn (dbSave st.db pid b r) x = true := by
        intro x hx
        rcases List.mem_append.mp hx with hx | hx
        · exact fetchedKeyIn_dbSave st.db pid b r x hr hkm (hkeys x hx)
        · simp only [List.mem_singleton] at hx
          rw [hx]
          exact fetchedKeyIn_dbSave_self st.db pid b r hr hkm
      have hpw2 : (st.saves ++ [r]).Pairwise (fun a c => sameRecKey a c = false) := by
        rw [List.pairwise_append]
        refine ⟨hpw, List.pairwise_singleton _ _, ?_⟩
        intro x hx y hy
        simp only [List.mem_singleton] at hy
        subst hy
        rw [sameRecKey_false_iff]
        intro hkey
        rcases (fetchedKeyIn_iff st.db x).mp (hkeys x hx) with ⟨z, hz, hzk, hzf⟩
        have : fetchedIn st.db pid b = true := by
          rw [fetchedIn_iff]
          exact ⟨z, hz, (hzk.trans hkey).trans hkm, hzf⟩
        rw [this] at hnotfet
        exact Bool.noConfusion hnotfet
      by_cases hc : 3 ≤ st.count + 1
      · simp only [hc, if_true]
        refine ⟨by simpa [resState] using hu2, ?_, by simpa [resState] using hpw2⟩
        intro x hx
        have hx2 : x ∈ st.saves ++ [r] := by simpa [resState] using hx
        simpa [resState] using hkeys2 x hx2
      · simp only [hc, if_false]
        refine ih _ (by simpa using hu2) ?_ (by simpa using hpw2)
        intro x hx
        have hx2 : x ∈ st.saves ++ [r] := by simpa using hx
        simpa using hkeys2 x hx2

/-- When the loop raises, the raising build is the last download attempted,
the error is its download or ingest failure, and no fetched row for its key
exists in the table carried by the raise. -/
theorem dsymLoop_error (env : Env) (pid : Nat) (bid : String) :
    ∀ (builds : List BuildInfo) (st : TaskState) (e : AppError) (st2 : TaskState),
      dbUnique st.db →
      dsymLoop env pid bid builds st = Except.error (e, st2) →
      ∃ b, st2.downloads.getLast? = some b ∧
        (download_dsyms env b = Except.error e ∨
          (download_dsyms env b = Except.ok () ∧
           create_difs_from_dsyms_zip env b pid = Except.error e)) ∧
        fetchedIn st2.db pid b = false := by
  intro builds
  induction builds with
  | nil => intro st e st2 hu h; simp [dsymLoop] at h
  | cons b rest ih =>
    intro st e st2 hu h
    rcases processBuild_cases env pid bid st b with
      ⟨hpb, _⟩ | ⟨e2, hpb, hfail, hunf⟩ | ⟨r, hpb, hr, hm, hdl, hing, hunf⟩
    · simp only [dsymLoop, hpb] at h
      by_cases hc : 3 ≤ st.count + 1
      · simp only [hc, if_true] at h
        exact Except.noConfusion h
      · simp only [hc, if_false] at h
        exact ih _ e st2 (by simpa using hu) h
    · simp only [dsymLoop, hpb] at h
      rw [Except.error.injEq, Prod.mk.injEq] at h
      obtain ⟨rfl, rfl⟩ := h
      refine ⟨b, by simp, hfail, ?_⟩
      have : fetchedIn st.db pid b = false :=
        fetchedIn_false_of_unfetched_get st.db pid b hu hunf
      simpa using this
    · simp only [dsymLoop, hpb] at h
      by_cases hc : 3 ≤ st.count + 1
      · simp only [hc, if_true] at h
        exact Except.noConfusion h
      · simp only [hc, if_false] at h
        have hkm : recKey r = buildKey pid b := (matchesBuild_iff pid b r).mp hm
        have hu2 : dbUnique (dbSave st.db pid b r) := dbSave_unique st.db pid b r hkm hu
        exact ih _ e st2 (by simpa using hu2) h

/-- When the loop returns normally, every download it attempted succeeded
together with its ingest. -/
theorem dsymLoop_ok_downloads (env : Env) (pid : Nat) (bid : String) :
    ∀ (builds : List BuildInfo) (st st2 : TaskState),
      (∀ b ∈ st.downloads, download_dsyms env b = Except.ok () ∧
        create_difs_from_dsyms_zip env b pid = Except.ok ()) →
      dsymLoop env pid bid builds st = Except.ok st2 →
      ∀ b ∈ st2.downloads, download_dsyms env b = Except.ok () ∧
        create_difs_from_dsyms_zip env b pid = Except.ok () := by
  intro builds
  induction builds with
  | nil =>
    intro st st2 h hloop
    rw [dsymLoop, Except.ok.injEq] at hloop
    subst hloop
    exact h
  | cons b rest ih =>
    intro st st2 h hloop
    rcases processBuild_cases env pid bid st b with
      ⟨hpb, _⟩ | ⟨e, hpb, _⟩ | ⟨r, hpb, hr, hm, hdl, hing, _⟩
    · simp only [dsymLoop, hpb] at hloop
      by_cases hc : 3 ≤ st.count + 1
      · simp only [hc, if_true, Except.ok.injEq] at hloop
        subst hloop
        simpa using h
      · simp only [hc, if_false] at hloop
        exact ih _ st2 (by simpa using h) hloop
    · simp only [dsymLoop, hpb] at hloop
      exact Except.noConfusion hloop
    · simp only [dsymLoop, hpb] at hloop
      have h2 : ∀ x ∈ st.downloads ++ [b],
          download_dsyms env x = Except.ok () ∧
          create_difs_from_dsyms_zip env x pid = Except.ok () := by
        intro x hx
        rcases List.mem_append.mp hx with hx | hx
        · exact h x hx
        · simp only [List.mem_singleton] at hx
          subst hx
          exact ⟨hdl, hing⟩
      by_cases hc : 3 ≤ st.count + 1
      · simp only [hc, if_true, Except.ok.injEq] at hloop
        subst hloop
        simpa using h2
      · simp only [hc, if_false] at hloop
        exact ih _ st2 (by simpa using h2) hloop

/-- C10: the task never persists a row with `fetched = false`. A row object
created in memory for a newly observed build is passed to `.save()` only in
the success branch, after `fetched` has been set to `true`, so every row the
task writes — whether the run returns or raises — has `fetched = true` at
the moment it is saved. -/
theorem saved_records_fetched :
    ∀ (env : Env) (pid : Nat) (sources : List Config) (cid : String)
      (db : List AppConnectBuild),
      ∀ r ∈ (resState (dsym_download env pid sources cid db)).saves,
        r.fetched = true := by
  intro env pid sources cid db
  rcases dsym_download_run env pid sources cid db with h | h | ⟨c, _, _, h⟩
  · rw [h]; simp [resState]
  · rw [h]; simp [resState]
  · rw [h]
    exact dsymLoop_saves_fetched env pid _ _ _ (by simp)

/-- C10 witness: the all-success concrete run saves the row for build "1",
and that row is fetched. -/
theorem saved_records_fetched_witness : (recTest "1").fetched = true :=
  saved_records_fetched envOk 1 srcsTest "cid" [] (recTest "1") (by decide)

/-- C4: for every run over a per-key-unique table, (i) every saved row
belongs to a build whose download and ingest both returned without error
(the `fetched = True; save()` pair runs only after
`create_difs_from_dsyms_zip` returned), (ii) no key is saved twice — a row
transitions not-fetched to fetched at most once — and (iii) when download
or ingest raises for a build, that build's key has no fetched row in the
table at the end of the run. -/
theorem fetch_record_transition :
    ∀ (env : Env) (pid : Nat) (sources : List Config) (cid : String)
      (db : List AppConnectBuild),
      dbUnique db →
      (∀ r ∈ (resState (dsym_download env pid sources cid db)).saves,
        ∃ b, matchesBuild pid b r = true ∧
          download_dsyms env b = Except.ok () ∧
          create_difs_from_dsyms_zip env b pid = Except.ok ()) ∧
      (resState (dsym_download env pid sources cid db)).saves.Pairwise
        (fun a b => sameRecKey a b = false) ∧
      (∀ e st2, dsym_download env pid sources cid db = Except.error (e, st2) →
        ∀ b, st2.downloads.getLast? = some b →
          fetchedIn st2.db pid b = false) := by
  intro env pid sources cid db hu
  rcases dsym_download_run env pid sources cid db with h | h | ⟨c, _, _, h⟩
  · refine ⟨by rw [h]; simp [resState], by rw [h]; simp [resState], ?_⟩
    intro e st2 herr b hb
    rw [h, Except.error.injEq, Prod.mk.injEq] at herr
    obtain ⟨rfl, rfl⟩ := herr
    simp at hb
  · refine ⟨by rw [h]; simp [resState], by rw [h]; simp [resState], ?_⟩
    intro e st2 herr b hb
    rw [h, Except.error.injEq, Prod.mk.injEq] at herr
    obtain ⟨rfl, rfl⟩ := herr
    simp at hb
  · refine ⟨?_, ?_, ?_⟩
    · rw [h]
      exact dsymLoop_saves_success env pid _ _ _ (by simp)
    · rw [h]
      exact (dsymLoop_unique env pid _ _ _ (by simpa using hu) (by simp)
        (by simp)).2.2
    · intro e st2 herr b hb
      rw [h] at herr
      rcases dsymLoop_error env pid _ _ _ e st2 (by simpa using hu) herr with
        ⟨b2, hb2, _, hf2⟩
      rw [hb] at hb2
      obtain rfl : b2 = b := by
        rw [Option.some.injEq] at hb2
        exact hb2.symm
      exact hf2

/-- C4 witness: in the concrete run whose ingest fails at build "1", the
run raises with that build last in the download trace, and the theorem
yields that no fetched row for it exists in the carried table (which is
empty). -/
theorem fetch_record_transition_witness :
    fetchedIn ([] : List AppConnectBuild) 1 (bTest "1") = false := by
  have h := fetch_record_transition envIngFail 1 srcsTest "cid" []
    (by simp [dbUnique])
  exact h.2.2 AppError.corruptArchive
    { db := [], saves := [], downloads := [bTest "1"], count := 0 } rfl
    (bTest "1") rfl

/-- C1 (amended): per-build failures are NOT caught at the per-build
boundary. For every run over a per-key-unique table: a run that returns
normally attempted only builds whose download and ingest both succeeded;
and a run that raises either failed before the loop (config missing or
invalid, empty download trace) or aborted the whole invocation at the
failing build — that build is the last download attempted, the raised error
is its download failure (including the NoArtifact/`NoDsymsError` case,
which also aborts) or its ingest failure, no later build is examined, and
the failing build's key has no fetched row in the table at the end of the
run. -/
theorem dsym_download_failure_aborts :
    ∀ (env : Env) (pid : Nat) (sources : List Config) (cid : String)
      (db : List AppConnectBuild),
      dbUnique db →
      (∀ st2, dsym_download env pid sources cid db = Except.ok st2 →
        ∀ b ∈ st2.downloads, download_dsyms env b = Except.ok () ∧
          create_difs_from_dsyms_zip env b pid = Except.ok ()) ∧
      (∀ e st2, dsym_download env pid sources cid db = Except.error (e, st2) →
        (st2.downloads = [] ∧
          (e = AppError.keyError ∨ e = AppError.invalidConfig)) ∨
        (∃ b, st2.downloads.getLast? = some b ∧
          (download_dsyms env b = Except.error e ∨
            (download_dsyms env b = Except.ok () ∧
             create_difs_from_dsyms_zip env b pid = Except.error e)) ∧
          fetchedIn st2.db pid b = false)) := by
  intro env pid sources cid db hu
  rcases dsym_download_run env pid sources cid db with h | h | ⟨c, _, _, h⟩
  · constructor
    · intro st2 hok
      rw [h] at hok
      exact Except.noConfusion hok
    · intro e st2 herr
      rw [h, Except.error.injEq, Prod.mk.injEq] at herr
      obtain ⟨rfl, rfl⟩ := herr
      exact Or.inl ⟨rfl, Or.inl rfl⟩
  · constructor
    · intro st2 hok
      rw [h] at hok
      exact Except.noConfusion hok
    · intro e st2 herr
      rw [h, Except.error.injEq, Prod.mk.injEq] at herr
      obtain ⟨rfl, rfl⟩ := herr
      exact Or.inl ⟨rfl, Or.inr rfl⟩
  · constructor
    · intro st2 hok
      rw [h] at hok
      exact dsymLoop_ok_downloads env pid _ _ _ st2 (by simp) hok
    · intro e st2 herr
      rw [h] at herr
      exact Or.inr (dsymLoop_error env pid _ _ _ e st2 (by simpa using hu) herr)

/-- C1 witness: applying the amended theorem to the concrete failing-fetch
run shows the raised error is build "1"'s download failure and that build
is left with no fetched row. -/
theorem dsym_download_failure_aborts_witness :
    download_dsyms envDlFail (bTest "1") = Except.error AppError.downloadFailed ∧
    fetchedIn ([] : List AppConnectBuild) 1 (bTest "1") = false := by
  have h := (dsym_download_failure_aborts envDlFail 1 srcsTest "cid" []
    (by simp [dbUnique])).2 AppError.downloadFailed
    { db := [], saves := [], downloads := [bTest "1"], count := 0 } rfl
  rcases h with ⟨hdl, _⟩ | ⟨b, hb, hfail, hf⟩
  · exact absurd hdl (by simp)
  · obtain rfl : b = bTest "1" := by
      rw [List.getLast?_singleton, Option.some.injEq] at hb
      exact hb.symm
    rcases hfail with hfail | ⟨hok, _⟩
    · exact ⟨hfail, by simpa using hf⟩
    · exact absurd hok (by simp [download_dsyms, envDlFail, envOk])

end AppStoreConnect
